import Mathlib

/-!
Verification of the data-processing core of the MSBA325 public-spaces
dashboard (`app.py`).  The pandas pipeline is shallowly embedded: a
dataframe is a list of rows, a row is a structure holding the cleaned
columns, `groupby k ... sum` is modelled by summing over the rows whose
key equals each distinct key (pandas sorts group keys, so the distinct
keys are sorted), `nlargest` by a stable descending insertion sort
followed by `take`, and strings handled character-wise are modelled as
`List Char`.  Fallible steps (`.iloc[0]`) return `Option`, with `none`
standing for the exception pandas would raise.
-/

namespace MSBA325

/-- One cleaned dataframe row (`df` after `load_data`, app.py lines 19-50):
the town, its derived `Area`, and the seven numeric indicator columns. -/
structure Row where
  Town : String
  Area : String
  parks_exist : ℚ
  parks_bad : ℚ
  parks_acceptable : ℚ
  parks_good : ℚ
  lighting_bad : ℚ
  lighting_acceptable : ℚ
  lighting_good : ℚ
deriving DecidableEq, Repr

/-- `str.replace('_', ' ')` character-wise. -/
def replUnderscore (c : Char) : Char := if c = '_' then ' ' else c

/-- Python `url.split('/')`: split a character list at every `'/'`,
keeping empty segments, never returning an empty list of segments. -/
def splitOnSlash : List Char → List (List Char)
  | [] => [[]]
  | c :: cs =>
    match splitOnSlash cs with
    | [] => [[]]
    | g :: gs => if c = '/' then [] :: g :: gs else (c :: g) :: gs

/-- Python `[-1]` on the (always nonempty) split result: last segment. -/
def lastSeg : List (List Char) → List Char
  | [] => []
  | [g] => g
  | _ :: g :: gs => lastSeg (g :: gs)

/-- `clean_ref_area` (app.py lines 31-32):
`url.split('/')[-1].replace('_', ' ')`. -/
def clean_ref_area (url : List Char) : List Char :=
  (lastSeg (splitOnSlash url)).map replUnderscore

/-- The spec's wording of the `Area` derivation (spec section 4.1 step 4):
“extract the substring after the final `/` and replace `_` with space”.
Stated independently of `clean_ref_area`, for the refinement claim C6. -/
def deriveAreaSpec (url : List Char) : List Char :=
  ((url.reverse.takeWhile (fun c => c != '/')).reverse).map replUnderscore

/-- `filtered_df` (app.py line 59): `df[df['Area'].isin(selected_areas)]`. -/
def filtered_df (rows : List Row) (sel : List String) : List Row :=
  rows.filter (fun r => sel.contains r.Area)

/-- The two grouping columns the script uses (`'Area'` / `'Town'`). -/
inductive GroupColumn where
  | area
  | town
deriving DecidableEq

def keyOf : GroupColumn → Row → String
  | .area, r => r.Area
  | .town, r => r.Town

/-- The distinct group keys, sorted ascending as pandas `groupby`
(`sort=True`, the default) produces them. -/
def groupKeys (g : GroupColumn) (rows : List Row) : List String :=
  List.insertionSort (· ≤ ·) ((rows.map (keyOf g)).dedup)

/-- Sum of a numeric column over a list of rows (`.sum()`). -/
def sumBy (f : Row → ℚ) (rows : List Row) : ℚ := (rows.map f).sum

/-- One output row of `filtered_df.groupby('Area')[[bad, acceptable,
good]].sum().reset_index()` (app.py lines 81 and 90). -/
structure CondRow where
  Area : String
  bad : ℚ
  acceptable : ℚ
  good : ℚ
deriving DecidableEq, Repr

def condData (bad acc good : Row → ℚ) (rows : List Row) : List CondRow :=
  (groupKeys .area rows).map (fun k =>
    let grp := rows.filter (fun r => r.Area == k)
    ⟨k, sumBy bad grp, sumBy acc grp, sumBy good grp⟩)

/-- `lighting_data` (app.py line 81). -/
def lighting_data (rows : List Row) (sel : List String) : List CondRow :=
  condData (fun r => r.lighting_bad) (fun r => r.lighting_acceptable)
    (fun r => r.lighting_good) (filtered_df rows sel)

/-- `parks_data` (app.py line 90). -/
def parks_data (rows : List Row) (sel : List String) : List CondRow :=
  condData (fun r => r.parks_bad) (fun r => r.parks_acceptable)
    (fun r => r.parks_good) (filtered_df rows sel)

/-- One row of `agg_data` (app.py lines 118-143): the group key, the seven
summed indicators, `town_count`, `total_score`, `normalized_score`. -/
structure AggRow where
  key : String
  lighting_good : ℚ
  parks_good : ℚ
  lighting_acceptable : ℚ
  parks_acceptable : ℚ
  parks_exist : ℚ
  parks_bad : ℚ
  lighting_bad : ℚ
  town_count : ℕ
  total_score : ℚ
  normalized_score : ℚ
deriving DecidableEq, Repr

/-- Build the aggregated row of one group (app.py lines 119-141): sums of
the indicator columns, `'Town': 'nunique'`, `total_score` as the sum of
the two good and two acceptable columns, `normalized_score` as
`total_score / town_count`. -/
def mkAggRow (k : String) (grp : List Row) : AggRow :=
  let lg := sumBy (fun r => r.lighting_good) grp
  let pg := sumBy (fun r => r.parks_good) grp
  let la := sumBy (fun r => r.lighting_acceptable) grp
  let pa := sumBy (fun r => r.parks_acceptable) grp
  let tc := ((grp.map (fun r => r.Town)).dedup).length
  let total := lg + pg + la + pa
  ⟨k, lg, pg, la, pa, sumBy (fun r => r.parks_exist) grp,
    sumBy (fun r => r.parks_bad) grp, sumBy (fun r => r.lighting_bad) grp,
    tc, total, total / (tc : ℚ)⟩

/-- `aggregate_data` (app.py lines 118-143). -/
def aggregate_data (rows : List Row) (g : GroupColumn) : List AggRow :=
  (groupKeys g rows).map (fun k =>
    mkAggRow k (rows.filter (fun r => keyOf g r == k)))

/-- Descending comparison used by `nlargest`: `a` comes before `b` when
`b`'s score does not exceed `a`'s. -/
def scoreRel (f : AggRow → ℚ) : AggRow → AggRow → Prop := fun a b => f b ≤ f a

instance (f : AggRow → ℚ) : DecidableRel (scoreRel f) :=
  fun a b => inferInstanceAs (Decidable (f b ≤ f a))

instance (f : AggRow → ℚ) : IsTotal AggRow (scoreRel f) :=
  ⟨fun a b => le_total (f b) (f a)⟩

instance (f : AggRow → ℚ) : IsTrans AggRow (scoreRel f) :=
  ⟨fun _ _ _ hab hbc => le_trans hbc hab⟩

/-- Stable descending sort by a score, as pandas `nlargest`
(`keep='first'`, stable mergesort) orders rows. -/
def sortDesc (f : AggRow → ℚ) (l : List AggRow) : List AggRow :=
  List.insertionSort (scoreRel f) l

/-- The score columns `nlargest` is called with (app.py lines 148, 152). -/
inductive ScoreCol where
  | total_score
  | normalized_score
deriving DecidableEq

def scoreOf : ScoreCol → AggRow → ℚ
  | .total_score, e => e.total_score
  | .normalized_score, e => e.normalized_score

/-- `top_entities` (app.py line 156): `grouped_df.nlargest(n, score_column)`. -/
def top_entities (agg : List AggRow) (n : ℕ) (c : ScoreCol) : List AggRow :=
  (sortDesc (scoreOf c) agg).take n

/-- `grouped_df` (app.py line 147): note it aggregates the full `df`,
not `filtered_df`; `view_level` is fixed to `'Areas'` (line 114). -/
def grouped_df (rows : List Row) : List AggRow := aggregate_data rows .area

/-- `score_column` in the `'Areas'` branch (app.py line 148). -/
def score_column : ScoreCol := .normalized_score

/-- The ranked top-N list the script renders (app.py lines 146-156). -/
def top_entities_view (rows : List Row) (n : ℕ) : List AggRow :=
  top_entities (grouped_df rows) n score_column

/-- `.iloc[0]`: first row, `none` when the frame is empty (pandas raises
`IndexError` there). -/
def iloc0 (l : List AggRow) : Option AggRow := l.head?

/-- `entity_data` (app.py line 197):
`top_entities[top_entities[group_column] == selected_entity].iloc[0]`. -/
def entity_data (top : List AggRow) (name : String) : Option AggRow :=
  iloc0 (top.filter (fun e => e.key == name))

/-- The cleaned dataframe's column names (after app.py lines 26-48). -/
def dataColumns : List String :=
  ["Area", "parks_exist", "Town", "parks_bad", "lighting_bad",
   "lighting_acceptable", "lighting_good", "parks_good", "parks_acceptable"]

/-- `binary_vars` (app.py line 223). -/
def binary_vars : List String :=
  ["parks_exist", "parks_bad", "lighting_bad", "lighting_acceptable",
   "lighting_good", "parks_good", "parks_acceptable"]

/-- Column access by name, defined for the seven numeric indicator
columns; `none` models the `KeyError` a missing column would raise. -/
def getCol : String → Row → Option ℚ := fun v r =>
  if v = "parks_exist" then some r.parks_exist
  else if v = "parks_bad" then some r.parks_bad
  else if v = "lighting_bad" then some r.lighting_bad
  else if v = "lighting_acceptable" then some r.lighting_acceptable
  else if v = "lighting_good" then some r.lighting_good
  else if v = "parks_good" then some r.parks_good
  else if v = "parks_acceptable" then some r.parks_acceptable
  else none

/-- One pie specification (app.py lines 237-243): the indicator column and
one slice per area with the summed indicator value. -/
structure Pie where
  var : String
  slices : List (String × ℚ)
deriving DecidableEq, Repr

def mkPie (v : String) (rows : List Row) : Pie :=
  ⟨v, (groupKeys .area rows).map (fun k =>
    (k, sumBy (fun r => (getCol v r).getD 0) (rows.filter (fun r => r.Area == k))))⟩

/-- `range(0, len(variables), 2)` with slices `variables[i:i+2]`
(app.py line 232): the variable list in chunks of two. -/
def chunkPairs {α : Type} : List α → List (List α)
  | [] => []
  | [x] => [[x]]
  | x :: y :: rest => [x, y] :: chunkPairs rest

/-- `create_binary_pie_charts` (app.py lines 229-257): filter the rows to
the selected areas, then for each chunk of two requested columns emit one
figure holding a pie for each of the (at most two) columns that are
present in the dataframe, skipping absent ones. -/
def create_binary_pie_charts (rows : List Row) (vars : List String)
    (sel : List String) : List (List Pie) :=
  (chunkPairs vars).map (fun ch =>
    ch.filterMap (fun v =>
      if v ∈ dataColumns then some (mkPie v (filtered_df rows sel)) else none))

/-- What the pie-chart section renders (app.py lines 271-287): the charts
when the selection is nonempty, otherwise `st.warning(...)`. -/
inductive PieOutput where
  | charts (figs : List (List Pie))
  | warning
deriving DecidableEq

def pieSection (rows : List Row) (sel : List String) : PieOutput :=
  if sel.isEmpty then .warning
  else .charts (create_binary_pie_charts rows binary_vars sel)

/-! Concrete data used to instantiate the theorems below.
`Row` fields are, in order: Town, Area, parks_exist, parks_bad,
parks_acceptable, parks_good, lighting_bad, lighting_acceptable,
lighting_good. -/

/-- A one-town table: town `A1` in area `X`, with a park, good park
condition and good lighting. -/
def exRow : Row := ⟨"A1", "X", 1, 0, 0, 1, 0, 0, 1⟩

def exDf : List Row := [exRow]

/-- First raw row of the spec's end-to-end scenario (section 8). -/
def r41 : Row := ⟨"A1", "X", 0, 0, 0, 1, 0, 0, 1⟩

/-- Second raw row of the spec's end-to-end scenario (section 8). -/
def r42 : Row := ⟨"A2", "X", 0, 0, 1, 0, 0, 1, 0⟩

/-- An aggregated row with `total_score = 5`. -/
def aggHi : AggRow := ⟨"HI", 3, 1, 1, 0, 0, 0, 0, 1, 5, 5⟩

/-- An aggregated row with `total_score = 3`. -/
def aggLo : AggRow := ⟨"LO", 1, 1, 1, 0, 0, 0, 0, 1, 3, 3⟩

/-- The characters of `"Beirut_District"`, the last segment of the
spec's example `refArea` URI. -/
def beirutURI : List Char :=
  ['B', 'e', 'i', 'r', 'u', 't', '_', 'D', 'i', 's', 't', 'r', 'i', 'c', 't']

/-- The characters of `"Beirut District"`. -/
def beirutArea : List Char :=
  ['B', 'e', 'i', 'r', 'u', 't', ' ', 'D', 'i', 's', 't', 'r', 'i', 'c', 't']

/-- The single aggregated row of `exDf` grouped by Area. -/
def exAgg : AggRow :=
  mkAggRow "X" (exDf.filter (fun r => keyOf GroupColumn.area r == "X"))

/-! Helper lemmas about `splitOnSlash`, `lastSeg` and `takeWhile`. -/

theorem splitOnSlash_ne_nil : ∀ cs : List Char, splitOnSlash cs ≠ []
  | [] => by simp [splitOnSlash]
  | c :: cs => by
      have h := splitOnSlash_ne_nil cs
      simp only [splitOnSlash]
      cases hs : splitOnSlash cs with
      | nil => exact absurd hs h
      | cons g gs => by_cases hc : c = '/' <;> simp [hc]

theorem splitOnSlash_no_slash : ∀ cs : List Char, '/' ∉ cs → splitOnSlash cs = [cs]
  | [], _ => rfl
  | c :: cs, h => by
      have hc : ¬ c = '/' := fun he => h (he ▸ List.mem_cons_self c cs)
      have ih := splitOnSlash_no_slash cs (fun hm => h (List.mem_cons_of_mem c hm))
      simp [splitOnSlash, ih, hc]

theorem splitOnSlash_singleton :
    ∀ cs g : List Char, splitOnSlash cs = [g] → g = cs ∧ '/' ∉ cs
  | [], g, h => by simp [splitOnSlash] at h; simp [h]
  | c :: cs, g, h => by
      rcases hs : splitOnSlash cs with _ | ⟨g', gs'⟩
      · exact absurd hs (splitOnSlash_ne_nil cs)
      · by_cases hc : c = '/'
        · simp [splitOnSlash, hs, hc] at h
        · simp only [splitOnSlash, hs, hc, if_neg hc] at h
          obtain ⟨hg, hgs⟩ := List.cons.injEq .. ▸ h
          subst hgs
          obtain ⟨hg', hns⟩ := splitOnSlash_singleton cs g' hs
          subst hg' hg
          refine ⟨rfl, ?_⟩
          intro hm
          rcases List.mem_cons.mp hm with he | hm
          · exact hc he.symm
          · exact hns hm

theorem slash_mem_of_two_le :
    ∀ cs : List Char, 2 ≤ (splitOnSlash cs).length → '/' ∈ cs
  | [], h => by simp [splitOnSlash] at h
  | c :: cs, h => by
      by_cases hc : c = '/'
      · exact hc ▸ List.mem_cons_self c cs
      · rcases hs : splitOnSlash cs with _ | ⟨g', gs'⟩
        · exact absurd hs (splitOnSlash_ne_nil cs)
        · simp only [splitOnSlash, hs, if_neg hc, List.length_cons] at h
          have : 2 ≤ (splitOnSlash cs).length := by simp [hs]; omega
          exact List.mem_cons_of_mem c (slash_mem_of_two_le cs this)

theorem takeWhile_append_stop {α : Type} (p : α → Bool) (a : α) (ha : p a = false) :
    ∀ l₁ l₂ : List α, (l₁ ++ a :: l₂).takeWhile p = l₁.takeWhile p
  | [], l₂ => by simp [List.takeWhile_cons, ha]
  | d :: t, l₂ => by
      by_cases hd : p d = true <;>
        simp [List.takeWhile_cons, hd, takeWhile_append_stop p a ha t l₂]

theorem takeWhile_append_all {α : Type} (p : α → Bool) :
    ∀ l₁ l₂ : List α, (∀ x ∈ l₁, p x = true) →
      (l₁ ++ l₂).takeWhile p = l₁ ++ l₂.takeWhile p
  | [], l₂, _ => rfl
  | d :: t, l₂, h => by
      have hd := h d (List.mem_cons_self d t)
      simp [List.takeWhile_cons, hd,
        takeWhile_append_all p t l₂ (fun x hx => h x (List.mem_cons_of_mem d hx))]

theorem takeWhile_append_of_mem (l₁ l₂ : List Char) (h : '/' ∈ l₁) :
    (l₁ ++ l₂).takeWhile (fun c => c != '/') = l₁.takeWhile (fun c => c != '/') := by
  obtain ⟨s, t, rfl⟩ := List.append_of_mem h
  rw [List.append_assoc, List.cons_append,
    takeWhile_append_stop (fun c => c != '/') '/' (by simp) s (t ++ l₂),
    takeWhile_append_stop (fun c => c != '/') '/' (by simp) s t]

/-- The last segment of the slash-split is the reversed longest
slash-free suffix: `clean_ref_area`'s segment extraction agrees with the
spec's “substring after the final `/`”. -/
theorem lastSeg_splitOnSlash :
    ∀ url : List Char,
      lastSeg (splitOnSlash url) = (url.reverse.takeWhile (fun c => c != '/')).reverse
  | [] => rfl
  | c :: cs => by
      have ih := lastSeg_splitOnSlash cs
      rcases hs : splitOnSlash cs with _ | ⟨g, gs⟩
      · exact absurd hs (splitOnSlash_ne_nil cs)
      · by_cases hc : c = '/'
        · subst hc
          have hsplit : splitOnSlash ('/' :: cs) = [] :: g :: gs := by
            simp [splitOnSlash, hs]
          rw [hsplit]
          have h1 : lastSeg ([] :: g :: gs) = lastSeg (g :: gs) := rfl
          rw [h1, ← hs, ih, List.reverse_cons,
            takeWhile_append_stop (fun c => c != '/') '/' (by simp) cs.reverse []]
        · simp only [splitOnSlash, hs, if_neg hc]
          rcases gs with _ | ⟨g', gs'⟩
          · obtain ⟨hg, hns⟩ := splitOnSlash_singleton cs g hs
            rw [hg]
            have h1 : lastSeg [c :: cs] = c :: cs := rfl
            have h2 : ∀ x ∈ cs.reverse, (x != '/') = true := by
              intro x hx
              have : x ∈ cs := List.mem_reverse.mp hx
              simp only [bne_iff_ne, ne_eq]
              exact fun he => hns (he ▸ this)
            rw [h1, List.reverse_cons, takeWhile_append_all _ _ _ h2]
            have h3 : [c].takeWhile (fun c => c != '/') = [c] := by
              simp [List.takeWhile_cons, hc]
            rw [h3, List.reverse_append]
            simp
          · have h1 : lastSeg ((c :: g) :: g' :: gs') = lastSeg (g :: g' :: gs') := rfl
            have hmem : '/' ∈ cs := by
              apply slash_mem_of_two_le
              simp [hs]
            have hmemr : '/' ∈ cs.reverse := List.mem_reverse.mpr hmem
            rw [h1, ← hs, ih, List.reverse_cons,
              takeWhile_append_of_mem cs.reverse [c] hmemr]

/-! Helper lemmas about grouping and sorting. -/

/-- Summing a column group-by-group over a duplicate-free list of keys
that covers every row gives the column's total over all rows. -/
theorem sum_filter_partition (key : Row → String) (f : Row → ℚ) :
    ∀ ks : List String, ks.Nodup → ∀ rows : List Row,
      (∀ r ∈ rows, key r ∈ ks) →
      (ks.map (fun k => sumBy f (rows.filter (fun r => key r == k)))).sum
        = sumBy f rows := by
  intro ks
  induction ks with
  | nil =>
      intro _ rows hcov
      match rows with
      | [] => simp [sumBy]
      | r :: t => exact absurd (hcov r (List.mem_cons_self _ _)) (by simp)
  | cons k ks ih =>
      intro hnd rows hcov
      have hknot : k ∉ ks := (List.nodup_cons.mp hnd).1
      have hnd' : ks.Nodup := (List.nodup_cons.mp hnd).2
      have hmap : ∀ k' ∈ ks,
          sumBy f (rows.filter (fun r => key r == k'))
            = sumBy f ((rows.filter (fun r => !(key r == k))).filter
                (fun r => key r == k')) := by
        intro k' hk'
        have hkk : k' ≠ k := fun he => hknot (he ▸ hk')
        rw [List.filter_filter]
        congr 1
        apply List.filter_congr
        intro r _
        by_cases h : key r = k'
        · simp [h, hkk]
        · simp [h]
      have hcov' : ∀ r ∈ rows.filter (fun r => !(key r == k)), key r ∈ ks := by
        intro r hr
        obtain ⟨hrm, hrk⟩ := List.mem_filter.mp hr
        have : key r ≠ k := by simpa using hrk
        rcases List.mem_cons.mp (hcov r hrm) with he | hm
        · exact absurd he this
        · exact hm
      rw [List.map_cons, List.sum_cons,
        List.map_congr_left hmap,
        ih hnd' (rows.filter (fun r => !(key r == k))) hcov']
      have hperm :
          List.Perm
            ((rows.filter (fun r => key r == k)).map f
              ++ (rows.filter (fun r => !(key r == k))).map f)
            (rows.map f) := by
        simpa [List.map_append] using
          (List.filter_append_perm (fun r => key r == k) rows).map f
      calc
        sumBy f (rows.filter (fun r => key r == k))
            + sumBy f (rows.filter (fun r => !(key r == k)))
            = ((rows.filter (fun r => key r == k)).map f
                ++ (rows.filter (fun r => !(key r == k))).map f).sum := by
              simp [sumBy, List.sum_append]
        _ = (rows.map f).sum := hperm.sum_eq
        _ = sumBy f rows := rfl

/-- The distinct group keys are duplicate-free. -/
theorem groupKeys_nodup (g : GroupColumn) (rows : List Row) :
    (groupKeys g rows).Nodup :=
  ((List.perm_insertionSort (· ≤ ·) ((rows.map (keyOf g)).dedup)).nodup_iff).mpr
    (List.nodup_dedup _)

/-- Every row's key occurs among the group keys. -/
theorem keyOf_mem_groupKeys (g : GroupColumn) (rows : List Row) :
    ∀ r ∈ rows, keyOf g r ∈ groupKeys g rows := by
  intro r hr
  unfold groupKeys
  rw [List.mem_insertionSort, List.mem_dedup]
  exact List.mem_map_of_mem (keyOf g) hr

/-- Inserting into the stable descending order preserves, value class by
value class, the original relative order of rows. -/
theorem filter_orderedInsert (f : AggRow → ℚ) (v : ℚ) (x : AggRow) :
    ∀ l : List AggRow,
      (List.orderedInsert (scoreRel f) x l).filter (fun e => f e == v)
        = if f x = v then x :: l.filter (fun e => f e == v)
          else l.filter (fun e => f e == v)
  | [] => by
      by_cases hfx : f x = v <;>
        simp [List.orderedInsert, List.filter_cons, beq_iff_eq, hfx]
  | b :: t => by
      by_cases hr : scoreRel f x b
      · by_cases hfx : f x = v <;>
          simp [List.orderedInsert, if_pos hr, List.filter_cons, hfx]
      · have hxb : f x < f b := lt_of_not_le hr
        have hrec := filter_orderedInsert f v x t
        by_cases hfx : f x = v
        · have hfb : ¬ f b = v := by
            intro he
            rw [← he] at hfx
            exact absurd hfx (ne_of_lt hxb)
          simp [List.orderedInsert, if_neg hr, List.filter_cons, hfb, hrec, hfx]
        · by_cases hfb : f b = v <;>
            simp [List.orderedInsert, if_neg hr, List.filter_cons, hfb, hrec, hfx]

/-- Stability of the descending sort: within each score class the rows
keep their original order. -/
theorem filter_sortDesc (f : AggRow → ℚ) (v : ℚ) :
    ∀ l : List AggRow,
      (sortDesc f l).filter (fun e => f e == v) = l.filter (fun e => f e == v)
  | [] => rfl
  | x :: l => by
      have h1 : sortDesc f (x :: l)
          = List.orderedInsert (scoreRel f) x (sortDesc f l) := rfl
      rw [h1, filter_orderedInsert, filter_sortDesc f v l]
      by_cases hfx : f x = v <;> simp [hfx, List.filter_cons]

/-- Flattening the two-per-figure chunked traversal gives the plain
traversal of the requested columns. -/
theorem flatten_chunkPairs {α β : Type} (f : α → Option β) :
    ∀ l : List α,
      (((chunkPairs l).map (fun ch => ch.filterMap f)).flatten) = l.filterMap f
  | [] => rfl
  | [x] => by simp [chunkPairs]
  | x :: y :: rest => by
      simp only [chunkPairs, List.map_cons, List.flatten_cons,
        flatten_chunkPairs f rest, List.filterMap_cons]
      cases f x <;> cases f y <;> simp

/-- A guarded `filterMap` is a `filter` followed by a `map`. -/
theorem filterMap_guard {α β : Type} (p : α → Prop) [DecidablePred p] (g : α → β) :
    ∀ l : List α,
      l.filterMap (fun v => if p v then some (g v) else none)
        = (l.filter (fun v => decide (p v))).map g
  | [] => rfl
  | x :: l => by
      by_cases hx : p x <;>
        simp [List.filterMap_cons, List.filter_cons, hx, filterMap_guard p g l]

/-! The claims. -/

/-- Claim C1, as stated, is false: with an empty area selection the
filter and the two condition groupbys are empty, but the top-N
aggregation (`grouped_df`, app.py line 147) is computed from the full
unfiltered `df`, so it does not yield zero rows on the one-row table
`exDf`. -/
theorem empty_selection_claim_fails :
    ¬ ((filtered_df exDf []).length = 0
       ∧ (lighting_data exDf []).length = 0
       ∧ (parks_data exDf []).length = 0
       ∧ (top_entities_view exDf 10).length = 0) := by decide

/-- Claim C1, amended: an empty selection empties the filtered table and
both condition groupbys without error; the top-N aggregation is computed
from the unfiltered table and is unaffected by the selection; the
pie-chart section reports a warning when its own selection is empty. -/
theorem empty_selection_behavior (rows : List Row) (n : ℕ) :
    filtered_df rows [] = []
  ∧ lighting_data rows [] = []
  ∧ parks_data rows [] = []
  ∧ top_entities_view rows n
      = top_entities (aggregate_data rows GroupColumn.area) n ScoreCol.normalized_score
  ∧ pieSection rows [] = PieOutput.warning := by
  have hf : filtered_df rows [] = [] := by simp [filtered_df]
  refine ⟨hf, ?_, ?_, rfl, rfl⟩
  · unfold lighting_data
    rw [hf]
    rfl
  · unfold parks_data
    rw [hf]
    rfl

/-- Claim C4: aggregating the spec's two raw rows by Area yields, for
area `X`, exactly `total_score = 4`, `town_count = 2` and
`normalized_score = 2`. -/
theorem aggregate_scenario :
    (aggregate_data [r41, r42] GroupColumn.area).map
      (fun e => (e.key, e.total_score, e.town_count, e.normalized_score))
      = [("X", 4, 2, 2)] := by
  simp [aggregate_data, groupKeys, keyOf, mkAggRow, sumBy, r41, r42,
    List.insertionSort, List.orderedInsert, List.dedup, List.pwFilter]
  norm_num

/-- Claim C6: `clean_ref_area` equals the spec's pure derivation
(substring after the final `/`, underscores replaced by spaces), and on
any input ending in `/Beirut_District` it returns `Beirut District`. -/
theorem clean_ref_area_correct :
    (∀ url : List Char, clean_ref_area url = deriveAreaSpec url)
  ∧ (∀ pre : List Char, clean_ref_area (pre ++ '/' :: beirutURI) = beirutArea) := by
  have h1 : ∀ url : List Char, clean_ref_area url = deriveAreaSpec url := by
    intro url
    unfold clean_ref_area deriveAreaSpec
    rw [lastSeg_splitOnSlash]
  refine ⟨h1, ?_⟩
  intro pre
  rw [h1]
  unfold deriveAreaSpec
  rw [List.reverse_append, List.reverse_cons, List.append_assoc, List.singleton_append,
    takeWhile_append_stop (fun c => c != '/') '/' (by simp) beirutURI.reverse pre.reverse]
  decide

/-- Claim C7 names a real defect: on a name absent from the aggregated
table the lookup reaches `.iloc[0]` on an empty frame, which raises
`IndexError` (modelled here by `none`) instead of returning a handled
“not found” result. -/
theorem entity_data_absent_raises :
    entity_data (aggregate_data exDf GroupColumn.area) "Nowhere" = none := by decide

/-- Claim C8: on any input without `/` the derivation returns the whole
string with underscores replaced, and never turns a nonempty input into
an empty output. -/
theorem clean_ref_area_no_slash (url : List Char) (h : '/' ∉ url) :
    clean_ref_area url = url.map replUnderscore
  ∧ (url ≠ [] → clean_ref_area url ≠ []) := by
  have h1 : clean_ref_area url = url.map replUnderscore := by
    unfold clean_ref_area
    rw [splitOnSlash_no_slash url h]
    rfl
  refine ⟨h1, fun hne => ?_⟩
  rw [h1]
  simpa using hne

/-- Witness for C8 at the slash-free input `A_B`. -/
theorem clean_ref_area_no_slash_witness :
    clean_ref_area ['A', '_', 'B'] = (['A', '_', 'B'] : List Char).map replUnderscore
  ∧ ((['A', '_', 'B'] : List Char) ≠ [] → clean_ref_area ['A', '_', 'B'] ≠ []) :=
  clean_ref_area_no_slash ['A', '_', 'B'] (by decide)

/-- Claim C2: every aggregated row has
`normalized_score = total_score / town_count` and `town_count ≥ 1`, so
the division is never by zero. -/
theorem aggregate_normalized (rows : List Row) (g : GroupColumn) (e : AggRow)
    (he : e ∈ aggregate_data rows g) :
    e.normalized_score = e.total_score / (e.town_count : ℚ) ∧ 1 ≤ e.town_count := by
  unfold aggregate_data at he
  obtain ⟨k, hk, rfl⟩ := List.mem_map.mp he
  constructor
  · simp [mkAggRow]
  · have hk' : k ∈ rows.map (keyOf g) := by simpa [groupKeys] using hk
    obtain ⟨r, hr, hkey⟩ := List.mem_map.mp hk'
    have hrg : r ∈ rows.filter (fun r => keyOf g r == k) :=
      List.mem_filter.mpr ⟨hr, by simp [hkey]⟩
    have htown : r.Town
        ∈ (rows.filter (fun r => keyOf g r == k)).map (fun r => r.Town) :=
      List.mem_map_of_mem _ hrg
    have hlen : 0 <
        ((rows.filter (fun r => keyOf g r == k)).map (fun r => r.Town)).dedup.length :=
      List.length_pos.mpr (List.ne_nil_of_mem (List.mem_dedup.mpr htown))
    simpa [mkAggRow] using hlen

/-- Witness for C2 at the one-row table `exDf` and its single group. -/
theorem aggregate_normalized_witness :
    exAgg.normalized_score = exAgg.total_score / (exAgg.town_count : ℚ)
  ∧ 1 ≤ exAgg.town_count :=
  aggregate_normalized exDf GroupColumn.area exAgg (List.mem_singleton_self exAgg)

/-- Claim C5: for every table and grouping column, the aggregated
`lighting_good` values sum to the raw column total — no row is dropped
or double-counted. -/
theorem aggregate_sum_invariant (rows : List Row) (g : GroupColumn) :
    ((aggregate_data rows g).map (fun e => e.lighting_good)).sum
      = (rows.map (fun r => r.lighting_good)).sum := by
  unfold aggregate_data
  rw [List.map_map]
  have hcomp :
      ((fun e : AggRow => e.lighting_good)
          ∘ fun k => mkAggRow k (rows.filter (fun r => keyOf g r == k)))
        = fun k => sumBy (fun r => r.lighting_good)
            (rows.filter (fun r => keyOf g r == k)) := by
    funext k
    simp [mkAggRow]
  rw [hcomp]
  exact sum_filter_partition (keyOf g) (fun r => r.lighting_good)
    (groupKeys g rows) (groupKeys_nodup g rows) rows (keyOf_mem_groupKeys g rows)

/-- Claim C3: the top-N list is sorted descending by the score column,
is drawn from a stable reordering of the aggregated table (equal scores
keep the original grouping order), is monotone in `n`, has
`min n (row count)` rows, and its members dominate every row left out. -/
theorem top_entities_spec (agg : List AggRow) (n : ℕ) (c : ScoreCol) :
    List.Sorted (scoreRel (scoreOf c)) (top_entities agg n c)
  ∧ List.Perm (sortDesc (scoreOf c) agg) agg
  ∧ (∀ v : ℚ, (sortDesc (scoreOf c) agg).filter (fun e => scoreOf c e == v)
        = agg.filter (fun e => scoreOf c e == v))
  ∧ top_entities agg n c ⊆ top_entities agg (n + 1) c
  ∧ (top_entities agg n c).length = min n agg.length
  ∧ (∀ x ∈ top_entities agg n c, ∀ y ∈ (sortDesc (scoreOf c) agg).drop n,
      scoreOf c y ≤ scoreOf c x) := by
  have hsorted : List.Sorted (scoreRel (scoreOf c)) (sortDesc (scoreOf c) agg) :=
    List.sorted_insertionSort _ agg
  refine ⟨?_, List.perm_insertionSort _ agg, fun v => filter_sortDesc _ v agg,
    ?_, ?_, ?_⟩
  · exact List.Pairwise.sublist (List.take_sublist n _) hsorted
  · intro x hx
    have h1 : (sortDesc (scoreOf c) agg).take n
        = ((sortDesc (scoreOf c) agg).take (n + 1)).take n := by
      rw [List.take_take, min_eq_left (Nat.le_succ n)]
    unfold top_entities at hx ⊢
    rw [h1] at hx
    exact List.take_subset _ _ hx
  · simp [top_entities, sortDesc, List.length_take]
  · intro x hx y hy
    have hps : List.Pairwise (scoreRel (scoreOf c))
        ((sortDesc (scoreOf c) agg).take n ++ (sortDesc (scoreOf c) agg).drop n) := by
      rw [List.take_append_drop]
      exact hsorted
    exact (List.pairwise_append.mp hps).2.2 x hx y hy

/-- Witness for C3 on a two-row aggregated table: the kept top-1 row
dominates the dropped one, and top-1 is contained in top-2. -/
theorem top_entities_spec_witness :
    scoreOf ScoreCol.total_score aggLo ≤ scoreOf ScoreCol.total_score aggHi
  ∧ aggHi ∈ top_entities [aggLo, aggHi] 2 ScoreCol.total_score :=
  ⟨(top_entities_spec [aggLo, aggHi] 1 ScoreCol.total_score).2.2.2.2.2 aggHi
      (by decide) aggLo (by decide),
    (top_entities_spec [aggLo, aggHi] 1 ScoreCol.total_score).2.2.2.1 (by decide)⟩

/-- Claim C9: when `n` is at least the number of aggregated rows, the
top-N selection returns the whole table sorted descending, and in
general it has exactly `min n (row count)` rows. -/
theorem top_entities_all (agg : List AggRow) (n : ℕ) (c : ScoreCol)
    (h : agg.length ≤ n) :
    top_entities agg n c = sortDesc (scoreOf c) agg
  ∧ (top_entities agg n c).length = min n agg.length
  ∧ List.Perm (sortDesc (scoreOf c) agg) agg
  ∧ List.Sorted (scoreRel (scoreOf c)) (top_entities agg n c) := by
  have hlen : (sortDesc (scoreOf c) agg).length ≤ n := by
    simpa [sortDesc] using h
  have h1 : top_entities agg n c = sortDesc (scoreOf c) agg :=
    List.take_of_length_le hlen
  refine ⟨h1, ?_, List.perm_insertionSort _ agg, ?_⟩
  · simp [top_entities, sortDesc, List.length_take]
  · rw [h1]
    exact List.sorted_insertionSort _ agg

/-- Witness for C9 with `n = 5` on a two-row aggregated table. -/
theorem top_entities_all_witness :
    top_entities [aggLo, aggHi] 5 ScoreCol.total_score
        = sortDesc (scoreOf ScoreCol.total_score) [aggLo, aggHi]
  ∧ (top_entities [aggLo, aggHi] 5 ScoreCol.total_score).length
        = min 5 ([aggLo, aggHi] : List AggRow).length
  ∧ List.Perm (sortDesc (scoreOf ScoreCol.total_score) [aggLo, aggHi]) [aggLo, aggHi]
  ∧ List.Sorted (scoreRel (scoreOf ScoreCol.total_score))
        (top_entities [aggLo, aggHi] 5 ScoreCol.total_score) :=
  top_entities_all [aggLo, aggHi] 5 ScoreCol.total_score (by decide)

/-- Claim C10: the pie-chart grid builds exactly one pie per requested
column present in the table (in order), silently skips absent columns,
and the column access behind the presence guard can never fail for the
indicator columns. -/
theorem create_binary_pie_charts_spec (rows : List Row) (sel vars : List String)
    (hv : ∀ v ∈ vars, v ∈ binary_vars ∨ v ∉ dataColumns) :
    ((create_binary_pie_charts rows vars sel).flatten
        = (vars.filter (fun v => decide (v ∈ dataColumns))).map
            (fun v => mkPie v (filtered_df rows sel)))
  ∧ ((create_binary_pie_charts rows vars sel).flatten).length
        = (vars.filter (fun v => decide (v ∈ dataColumns))).length
  ∧ (∀ v ∈ vars, v ∈ dataColumns → ∀ r : Row, (getCol v r).isSome = true) := by
  have h1 : (create_binary_pie_charts rows vars sel).flatten
      = (vars.filter (fun v => decide (v ∈ dataColumns))).map
          (fun v => mkPie v (filtered_df rows sel)) := by
    unfold create_binary_pie_charts
    rw [flatten_chunkPairs, filterMap_guard]
  refine ⟨h1, ?_, ?_⟩
  · rw [h1, List.length_map]
  · intro v hvv hvd r
    rcases hv v hvv with hb | habs
    · simp [binary_vars] at hb
      rcases hb with rfl | rfl | rfl | rfl | rfl | rfl | rfl <;> simp [getCol]
    · exact absurd hvd habs

/-- Witness for C10: one present and one absent requested column. -/
theorem create_binary_pie_charts_spec_witness :
    ((create_binary_pie_charts exDf ["lighting_good", "bogus"] ["X"]).flatten
        = ((["lighting_good", "bogus"] : List String).filter
            (fun v => decide (v ∈ dataColumns))).map
            (fun v => mkPie v (filtered_df exDf ["X"])))
  ∧ ((create_binary_pie_charts exDf ["lighting_good", "bogus"] ["X"]).flatten).length
        = ((["lighting_good", "bogus"] : List String).filter
            (fun v => decide (v ∈ dataColumns))).length
  ∧ (∀ v ∈ (["lighting_good", "bogus"] : List String),
        v ∈ dataColumns → ∀ r : Row, (getCol v r).isSome = true) :=
  create_binary_pie_charts_spec exDf ["X"] ["lighting_good", "bogus"] (by decide)

end MSBA325
